import Mathlib

/-!
Shallow embedding of the media-decoding core of the `swfextract` repository
(`src/bitmap.rs`, `src/main.rs`, `src/sound.rs`, and the ADPCM decoder that
`src/sound.rs` calls), together with theorems settling the specification
claims about it.

Machine integers are modelled as `Nat`/`Int`; byte buffers as `List Nat`
(each element a byte value); Rust panics (`unwrap`/`expect`) as `Option.none`;
fallible decode paths that return `Result<_, Error>` as `Except Error _`.
The one piece of floating-point arithmetic (`scale_5_to_8` in `bitmap.rs`)
is modelled exactly: the two IEEE-754 double roundings it performs
(the constant division `255.0 / 31.0` and the multiplication) are carried
out over integers scaled by `2^49`, with round-to-nearest, ties-to-even.
-/

namespace SwfExtract

/-- Embedding of `enum Error` from `bitmap.rs`.  The payloads of the
wrapping constructors are external library error values and are omitted;
only the constructor identity matters to the claims. -/
inductive Error where
  | IoError
  | JpegDecodingError
  | PngDecodingError
  | PngEncodingError
  | GifDecodingError
  | ZlibDecodingError
  | ShortRead
  | Cmyk
deriving DecidableEq

/-- Round-to-nearest, ties-to-even integer division: the IEEE-754 rounding
of the exact quotient `a / b` to an integer grid. -/
def divRoundEven (a b : Nat) : Nat :=
  let q := a / b
  let r := a % b
  if 2 * r > b ∨ (2 * r = b ∧ q % 2 = 1) then q + 1 else q

/-- Fuel-based floor of the base-2 logarithm (`floorLog2 fuel n = ⌊log₂ n⌋`
whenever `fuel ≥ n ≥ 1`); structural recursion so the kernel can evaluate it. -/
def floorLog2 (fuel n : Nat) : Nat :=
  match fuel with
  | 0 => 0
  | fuel + 1 => if n ≤ 1 then 0 else floorLog2 fuel (n / 2) + 1

/-- Round a positive integer to 53 significant bits, nearest, ties-to-even:
the IEEE-754 double rounding of an exact integer-valued product. -/
def roundSig (p : Nat) : Nat :=
  if p < 2 ^ 53 then p
  else
    let k := floorLog2 p p + 1 - 53
    let q := p / 2 ^ k
    let r := p % 2 ^ k
    if 2 * r > 2 ^ k ∨ (2 * r = 2 ^ k ∧ q % 2 = 1) then (q + 1) * 2 ^ k else q * 2 ^ k

/-- Significand of the `f64` constant `SCALE_FACTOR = (0xFF as f64) / (0b11111 as f64)`
from `bitmap.rs`.  `255 / 31` lies in `[8, 16)`, so the `f64` value is
`scaleFactorSig / 2^49` with `scaleFactorSig` the 53-bit rounding below. -/
def scaleFactorSig : Nat := divRoundEven (255 * 2 ^ 49) 31

/-- Embedding of `fn scale_5_to_8(value: u16) -> u8` from `bitmap.rs`:
`(((value & 0b11111) as f64) * SCALE_FACTOR) as u8`.
`value & 0b11111` is `value % 32`; the masked value (≤ 31) is exact in `f64`;
the product `masked * (scaleFactorSig / 2^49)` is rounded to 53 significant
bits by the `f64` multiplication; `as u8` truncates toward zero and
saturates at 255. -/
def scale_5_to_8 (value : Nat) : Nat :=
  let masked := value % 32
  let p := roundSig (masked * scaleFactorSig)
  min (p / 2 ^ 49) 255

/-- Round-to-nearest integer division (ties up; with `b` odd no exact tie
exists), used to state the spec's `round(value * 255 / 31)` rule. -/
def roundNearest (a b : Nat) : Nat := (2 * a + b) / (2 * b)

/-- Embedding of the per-pixel body of the `BitmapData::Rgb15` branch of
`Bitmap::write` in `bitmap.rs`: the two bytes are combined big-endian into
`word` and the three channels are `scale_5_to_8` of `word >> 10`,
`word >> 5`, `word >> 0`. -/
def rgb15DecodePixel (top bottom : Nat) : Nat × Nat × Nat :=
  let word := 256 * top + bottom
  (scale_5_to_8 (word / 2 ^ 10), scale_5_to_8 (word / 2 ^ 5), scale_5_to_8 word)

/-- Embedding of the inner (per-pixel) loop of the `PixelFormat::L8` arm of
the `BitmapData::Jpeg`-with-`alpha_data` branch of `Bitmap::write` in
`bitmap.rs`: each pixel reads one grayscale byte then one alpha byte and
pushes both; an exhausted iterator yields `Error::ShortRead`.  Returns the
row together with the unconsumed remainders of both streams. -/
def mergeRowL8 : Nat → List Nat → List Nat → Except Error (List Nat × List Nat × List Nat)
  | 0, px, al => .ok ([], px, al)
  | w + 1, px, al =>
    match px, al with
    | g :: px, a :: al => do
      let (row, px1, al1) ← mergeRowL8 w px al
      .ok (g :: a :: row, px1, al1)
    | _, _ => .error .ShortRead

/-- Embedding of the outer (per-row) loop of the `PixelFormat::L8` arm:
`height` rows of `width` pixels each; the written PNG payload is the list
of rows.  Leftover bytes in either stream are ignored. -/
def mergeL8 (w : Nat) : Nat → List Nat → List Nat → Except Error (List (List Nat))
  | 0, _, _ => .ok []
  | h + 1, px, al => do
    let (row, px1, al1) ← mergeRowL8 w px al
    let rest ← mergeL8 w h px1 al1
    .ok (row :: rest)

/-- Embedding of the inner loop of the `PixelFormat::L16` arm of the same
branch: each pixel reads the grayscale MSB and LSB bytes and one alpha byte,
pushing `msb, lsb, alpha, alpha` (the 8-bit alpha is widened to 16 bits by
duplication). -/
def mergeRowL16 : Nat → List Nat → List Nat → Except Error (List Nat × List Nat × List Nat)
  | 0, px, al => .ok ([], px, al)
  | w + 1, px, al =>
    match px, al with
    | m :: l :: px, a :: al => do
      let (row, px1, al1) ← mergeRowL16 w px al
      .ok (m :: l :: a :: a :: row, px1, al1)
    | _, _ => .error .ShortRead

/-- Outer loop of the `PixelFormat::L16` arm. -/
def mergeL16 (w : Nat) : Nat → List Nat → List Nat → Except Error (List (List Nat))
  | 0, _, _ => .ok []
  | h + 1, px, al => do
    let (row, px1, al1) ← mergeRowL16 w px al
    let rest ← mergeL16 w h px1 al1
    .ok (row :: rest)

/-- Embedding of the inner loop of the `PixelFormat::RGB24` arm of the same
branch: each pixel reads `r`, `g`, `b` and one alpha byte, pushing
`r, g, b, alpha` (RGBA). -/
def mergeRowRgb : Nat → List Nat → List Nat → Except Error (List Nat × List Nat × List Nat)
  | 0, px, al => .ok ([], px, al)
  | w + 1, px, al =>
    match px, al with
    | r :: g :: b :: px, a :: al => do
      let (row, px1, al1) ← mergeRowRgb w px al
      .ok (r :: g :: b :: a :: row, px1, al1)
    | _, _ => .error .ShortRead

/-- Outer loop of the `PixelFormat::RGB24` arm. -/
def mergeRgb (w : Nat) : Nat → List Nat → List Nat → Except Error (List (List Nat))
  | 0, _, _ => .ok []
  | h + 1, px, al => do
    let (row, px1, al1) ← mergeRowRgb w px al
    let rest ← mergeRgb w h px1 al1
    .ok (row :: rest)

/-- Embedding of `jpeg_decoder::PixelFormat` as matched by the
alpha-merge branch of `Bitmap::write`. -/
inductive JpegPixelFormat where
  | L8
  | L16
  | RGB24
  | CMYK32
deriving DecidableEq

/-- Format dispatch of the `BitmapData::Jpeg`-with-`alpha_data` branch of
`Bitmap::write`: the three supported pixel formats interleave the alpha
plane; `CMYK32` returns `Err(Error::Cmyk)`. -/
def jpegAlphaMerge (pf : JpegPixelFormat) (w h : Nat) (px al : List Nat) :
    Except Error (List (List Nat)) :=
  match pf with
  | .L8 => mergeL8 w h px al
  | .L16 => mergeL16 w h px al
  | .RGB24 => mergeRgb w h px al
  | .CMYK32 => .error .Cmyk

/-- Spec-side description of grayscale+alpha interleaving: each output pixel
is the grayscale byte followed by the alpha byte. -/
def interleaveGA : List Nat → List Nat → List Nat
  | g :: px, a :: al => g :: a :: interleaveGA px al
  | _, _ => []

/-- Spec-side description of 16-bit-grayscale+alpha interleaving: the single
alpha byte is duplicated to fill both alpha bytes. -/
def interleaveL16A : List Nat → List Nat → List Nat
  | m :: l :: px, a :: al => m :: l :: a :: a :: interleaveL16A px al
  | _, _ => []

/-- Spec-side description of RGB+alpha interleaving: each output pixel is
the R, G, B bytes followed by the alpha byte (RGBA). -/
def interleaveRgbA : List Nat → List Nat → List Nat
  | r :: g :: b :: px, a :: al => r :: g :: b :: a :: interleaveRgbA px al
  | _, _ => []

/-- Reads `n` consecutive bytes via `data_iter.next().unwrap()`, keeping them:
`none` models the panic of `unwrap` on an exhausted iterator. -/
def takeBytes : Nat → List Nat → Option (List Nat × List Nat)
  | 0, l => some ([], l)
  | _ + 1, [] => none
  | n + 1, x :: rest => (takeBytes n rest).map fun (r, l) => (x :: r, l)

/-- Reads `n` consecutive bytes via `data_iter.next().unwrap()`, discarding them
(the padding skip); `none` models the panic of `unwrap`. -/
def skipBytes : Nat → List Nat → Option (List Nat)
  | 0, l => some l
  | _ + 1, [] => none
  | n + 1, _ :: rest => skipBytes n rest

/-- Embedding of the row-reading loop shared (as three textual copies) by the
`Tag::DefineBitsLossless` branches of `process_tags` in `main.rs`
(`ColorMap8` with `k = 1`, `Rgb15` with `k = 2`, `Rgb32` at version ≠ 2 with
`k = 3`): per row the inner loop reads exactly `width` bytes into
`image_data`, then, when `(k * width) % 4 ≠ 0`, reads and discards
`4 - (k * width) % 4` padding bytes; `none` models the panic of
`data_iter.next().unwrap()` on exhausted data.  Returns the concatenated
`image_data`; bytes left after the last row are ignored. -/
def readPaddedRows (k width : Nat) : Nat → List Nat → Option (List Nat)
  | 0, _ => some []
  | h + 1, data => do
    let (row, rest) ← takeBytes width data
    let rest ← if (k * width) % 4 ≠ 0 then skipBytes (4 - (k * width) % 4) rest else some rest
    let tail ← readPaddedRows k width h rest
    some (row ++ tail)

/-- Parse `n` RGB palette entries (3 bytes each, component order r, g, b);
`none` models the panic of `palette_iter.next().unwrap()`. -/
def parseRgbTriples : Nat → List Nat → Option (List (Nat × Nat × Nat))
  | 0, _ => some []
  | n + 1, r :: g :: b :: rest => (parseRgbTriples n rest).map fun t => (r, g, b) :: t
  | _ + 1, _ => none

/-- Embedding of the `BitmapFormat::ColorMap8` (version ≠ 2) branch of
`process_tags` in `main.rs`: reads `3 * (num_colors + 1)` palette bytes
(`read_exact` followed by `expect`, i.e. a panic — `none` — when short),
parses the RGB palette, then reads the padded index rows.  Every failure
path of this branch is a panic (`expect` / `unwrap`), modelled as `none`;
no typed error value is ever produced. -/
def colorMap8Decode (num_colors width height : Nat) (data : List Nat) :
    Option (List (Nat × Nat × Nat) × List Nat) := do
  let actual_num_colors := num_colors + 1
  let (palette_bytes, rest) ← takeBytes (3 * actual_num_colors) data
  let palette ← parseRgbTriples actual_num_colors palette_bytes
  let image_data ← readPaddedRows 1 width height rest
  some (palette, image_data)

/-- Embedding of the per-row loop of the `BitmapData::Rgb15` branch of
`Bitmap::write` in `bitmap.rs`: each pixel reads two bytes and decodes them
with `rgb15DecodePixel`; an exhausted iterator yields `Error::ShortRead`. -/
def rgb15WriteRow : Nat → List Nat → Except Error (List Nat × List Nat)
  | 0, l => .ok ([], l)
  | w + 1, top :: bottom :: rest => do
    let (row, l) ← rgb15WriteRow w rest
    let (r, g, b) := rgb15DecodePixel top bottom
    .ok (r :: g :: b :: row, l)
  | _ + 1, _ => .error .ShortRead

/-- Outer loop of the `BitmapData::Rgb15` branch of `Bitmap::write`:
`height` rows of `width` pixels. -/
def rgb15WriteRows (width : Nat) : Nat → List Nat → Except Error (List (List Nat))
  | 0, _ => .ok []
  | h + 1, data => do
    let (row, rest) ← rgb15WriteRow width data
    let tail ← rgb15WriteRows width h rest
    .ok (row :: tail)

/-- Embedding of the per-row loop of the `BitmapData::Rgb24` branch of
`Bitmap::write` in `bitmap.rs`: each pixel copies three bytes (r, g, b)
unchanged; an exhausted iterator yields `Error::ShortRead`. -/
def rgb24WriteRow : Nat → List Nat → Except Error (List Nat × List Nat)
  | 0, l => .ok ([], l)
  | w + 1, r :: g :: b :: rest => do
    let (row, l) ← rgb24WriteRow w rest
    .ok (r :: g :: b :: row, l)
  | _ + 1, _ => .error .ShortRead

/-- Outer loop of the `BitmapData::Rgb24` branch of `Bitmap::write`. -/
def rgb24WriteRows (width : Nat) : Nat → List Nat → Except Error (List (List Nat))
  | 0, _ => .ok []
  | h + 1, data => do
    let (row, rest) ← rgb24WriteRow width data
    let tail ← rgb24WriteRows width h rest
    .ok (row :: tail)

/-- Embedding of `swf::AudioCompression` as matched by `sound.rs`; the
formats not named there are collapsed into `OtherCompression`. -/
inductive AudioCompression where
  | Adpcm
  | Uncompressed
  | UncompressedUnknownEndian
  | Mp3
  | OtherCompression
deriving DecidableEq

/-- Embedding of the fields of `swf::SoundFormat` that `Sound::write_wav`
reads (`sample_rate` is a `u16` in the `swf` crate). -/
structure SoundFormat where
  compression : AudioCompression
  sample_rate : Nat
  is_16_bit : Bool
  is_stereo : Bool
deriving DecidableEq

/-- Little-endian byte encoding of a `u16` (`to_le_bytes`). -/
def le16 (n : Nat) : List Nat := [n % 256, n / 256 % 256]

/-- Little-endian byte encoding of a `u32` (`to_le_bytes`). -/
def le32 (n : Nat) : List Nat :=
  [n % 256, n / 256 % 256, n / 2 ^ 16 % 256, n / 2 ^ 24 % 256]

/-- Embedding of the `bits_per_sample_bytes` match in `Sound::write_wav`:
`Uncompressed` uses the format's sample width, `Adpcm` always decodes to
signed 16-bit PCM; every other compression hits `unreachable!`, modelled
as `none`. -/
def bitsPerSample (fmt : SoundFormat) : Option Nat :=
  match fmt.compression with
  | .Uncompressed => some (if fmt.is_16_bit then 16 else 8)
  | .Adpcm => some 16
  | _ => none

/-- Embedding of `Sound::write_wav` in `sound.rs`, producing the byte stream
written to the output.  The source builds `fmt_data` as a literal 16-byte
array; here it is written as the equivalent concatenation of its
little-endian fields.  `none` models the `unreachable!` for unsupported
compressions and the `expect` panic when the RIFF payload exceeds `u32`. -/
def writeWav (fmt : SoundFormat) (data : List Nat) : Option (List Nat) := do
  let bps ← bitsPerSample fmt
  -- sample rate * bytes per sample * channels
  let bytes_per_sec :=
    fmt.sample_rate * (if fmt.is_16_bit then 2 else 1) * (if fmt.is_stereo then 2 else 1)
  let sample_alignment :=
    1 * (if fmt.is_16_bit then 2 else 1) * (if fmt.is_stereo then 2 else 1)
  let fmt_data :=
    le16 1 ++ le16 (if fmt.is_stereo then 2 else 1) ++ le32 fmt.sample_rate
    ++ le32 bytes_per_sec ++ le16 sample_alignment ++ le16 bps
  let riff_data_len := 4 + 4 + 4 + fmt_data.length + 4 + 4 + data.length
  if riff_data_len < 2 ^ 32 then
    some ([0x52, 0x49, 0x46, 0x46] ++ le32 riff_data_len          -- "RIFF", size
      ++ [0x57, 0x41, 0x56, 0x45]                                 -- "WAVE"
      ++ [0x66, 0x6D, 0x74, 0x20] ++ le32 fmt_data.length         -- "fmt ", size
      ++ fmt_data
      ++ [0x64, 0x61, 0x74, 0x61] ++ le32 data.length             -- "data", size
      ++ data)
  else none

/-- Clamp an integer into `[lo, hi]`. -/
def clampInt (lo hi x : Int) : Int := max lo (min x hi)

/-- Sign-extension of a 16-bit value to a signed integer. -/
def signExtend16 (n : Nat) : Int :=
  if n % 65536 < 32768 then (n % 65536 : Int) else (n % 65536 : Int) - 65536

/-- Modelled from the spec: the per-channel mutable state
`{ predictor: i16, step_index: i32 }` of the `AdpcmDecoder` in
`src/adpcm.rs`, which is not part of the source tree (only its caller
`Sound::append_data` in `sound.rs` is). -/
structure ChannelState where
  predictor : Int
  step_index : Int
deriving DecidableEq

/-- Modelled from the spec: the width-specific constant tables of the
`AdpcmDecoder` in the missing `src/adpcm.rs` — the step-size table indexed
by `step_index`, the magnitude and index-delta tables indexed by the
sign-stripped code, and the table size (4, 8, 16 or 32 for bit widths
2, 3, 4, 5).  The table contents are not given by the spec, so they are
abstract parameters here. -/
structure AdpcmTables where
  tableSize : Nat
  stepSizeTable : Nat → Nat
  magnitudeTable : Nat → Nat
  indexDeltaTable : Nat → Int

/-- Modelled from the spec: per-channel header seeding of the missing
`AdpcmDecoder` — `predictor` is the sign-extended 16-bit header value and
`step_index` is the header index clamped into `[0, table_size - 1]`. -/
def adpcmInit (t : AdpcmTables) (pred16 : Nat) (rawIndex : Int) : ChannelState :=
  { predictor := signExtend16 pred16,
    step_index := clampInt 0 ((t.tableSize : Int) - 1) rawIndex }

/-- Modelled from the spec: one decode step of the missing `AdpcmDecoder`
for a code whose sign bit is `code.1` and whose sign-stripped magnitude
bits are `code.2`:
`delta = (magnitude_table[code] * step_size_table[step_index]) >> shift`
with the sign applied, `predictor = clamp(predictor + delta, -32768, 32767)`,
`step_index = clamp(step_index + index_delta_table[code], 0, table_size - 1)`. -/
def adpcmStep (t : AdpcmTables) (shift : Nat) (st : ChannelState)
    (code : Bool × Nat) : ChannelState :=
  let step_size := t.stepSizeTable st.step_index.toNat
  let magnitude : Int := ((t.magnitudeTable code.2 * step_size : Nat) : Int) / 2 ^ shift
  let delta := if code.1 then -magnitude else magnitude
  { predictor := clampInt (-32768) 32767 (st.predictor + delta),
    step_index := clampInt 0 ((t.tableSize : Int) - 1) (st.step_index + t.indexDeltaTable code.2) }

/-- Modelled from the spec: the sequence of channel states of the missing
`AdpcmDecoder` along a code stream — the seeded state followed by the state
after each decode step. -/
def adpcmTrace (t : AdpcmTables) (shift : Nat) (init : ChannelState)
    (codes : List (Bool × Nat)) : List ChannelState :=
  codes.scanl (adpcmStep t shift) init

/-- A concrete `AdpcmTables` instantiation (table size 4, i.e. bit width 2,
with constant tables), used to evaluate the ADPCM invariant on a concrete
input. -/
def sampleTables : AdpcmTables := ⟨4, fun _ => 7, fun _ => 3, fun _ => 2⟩

/-! ### Theorems -/

@[simp] theorem optionBind_some {α β : Type} (a : α) (f : α → Option β) :
    (some a : Option α) >>= f = f a := rfl

@[simp] theorem optionBind_none {α β : Type} (f : α → Option β) :
    (none : Option α) >>= f = none := rfl

theorem scale_eq_floor : ∀ v < 32, scale_5_to_8 v = v * 255 / 31 := by decide

theorem scale_mask (v : Nat) : scale_5_to_8 v = scale_5_to_8 (v % 32) := by
  simp [scale_5_to_8, Nat.mod_mod_of_dvd]

theorem rgb15_decode_masked (top bottom : Nat) :
    rgb15DecodePixel top bottom =
      (scale_5_to_8 ((256 * top + bottom) / 1024 % 32),
       scale_5_to_8 ((256 * top + bottom) / 32 % 32),
       scale_5_to_8 ((256 * top + bottom) % 32)) := by
  simp only [rgb15DecodePixel]
  norm_num
  exact ⟨scale_mask _, scale_mask _, scale_mask _⟩

theorem rgb15_bit15_irrelevant (top bottom : Nat) (_ht : top < 256) (_hb : bottom < 256) :
    rgb15DecodePixel top bottom = rgb15DecodePixel (top % 128) bottom := by
  rw [rgb15_decode_masked, rgb15_decode_masked]
  have e1 : (256 * top + bottom) / 1024 % 32 = (256 * (top % 128) + bottom) / 1024 % 32 := by
    omega
  have e2 : (256 * top + bottom) / 32 % 32 = (256 * (top % 128) + bottom) / 32 % 32 := by
    omega
  have e3 : (256 * top + bottom) % 32 = (256 * (top % 128) + bottom) % 32 := by
    omega
  rw [e1, e2, e3]

/-- C1. The `Rgb15` branch of `process_tags` in `main.rs` reads only
`width` bytes of data per row (one byte per pixel), not the `2 * width`
bytes a 16-bit-per-pixel row contains: for a 2-pixel-wide, 1-row Rgb15
image whose inflated payload holds the four pixel bytes
`[0x11, 0x22, 0x33, 0x44]`, the code consumes and surfaces only the first
two bytes, contradicting its own `2 bytes per pixel` comment and the
claimed `ceil(2*width/4)*4`-byte row footprint. -/
theorem c1_rgb15_row_reads_one_byte_per_pixel :
    readPaddedRows 2 2 1 [0x11, 0x22, 0x33, 0x44] = some [0x11, 0x22] := by
  rfl

/-- C2 counterexample. At input 3 the channel-widening function returns
24, while rounding `3 * 255 / 31 = 24.677…` to the nearest integer gives
25 — so `scale_5_to_8` is not the round-to-nearest scaling the claim
states. -/
theorem c2_scale_not_round_to_nearest :
    scale_5_to_8 3 ≠ roundNearest (3 * 255) 31
      ∧ scale_5_to_8 3 = 24 ∧ roundNearest (3 * 255) 31 = 25 := by
  decide

/-- C2 amended. For every 5-bit input `v`, the Rgb15 channel-widening
function returns `v * 255 / 31` rounded *toward zero* (truncated), i.e.
`⌊v * 255 / 31⌋`, not the nearest integer. -/
theorem c2_scale_eq_floor_of_exact :
    ∀ v < 32, scale_5_to_8 v = v * 255 / 31 :=
  scale_eq_floor

/-- C2 witness. The amended claim instantiated at `v = 5`. -/
theorem c2_scale_eq_floor_witness :
    scale_5_to_8 5 = 5 * 255 / 31 :=
  c2_scale_eq_floor_of_exact 5 (by decide)

/-- C3. The Rgb15 5-to-8-bit scaling function maps `0b00000` to 0 and
`0b11111` to 255, and is monotonically non-decreasing over inputs
`0..31`. -/
theorem c3_scale_monotone_and_endpoints :
    scale_5_to_8 0 = 0 ∧ scale_5_to_8 0b11111 = 255
      ∧ ∀ v w, v ≤ w → w < 32 → scale_5_to_8 v ≤ scale_5_to_8 w := by
  refine ⟨by decide, by decide, fun v w hvw hw => ?_⟩
  rw [scale_eq_floor v (lt_of_le_of_lt hvw hw), scale_eq_floor w hw]
  exact Nat.div_le_div_right (Nat.mul_le_mul_right _ hvw)

/-- C3 witness. Monotonicity instantiated at `3 ≤ 7`. -/
theorem c3_scale_monotone_witness :
    scale_5_to_8 3 ≤ scale_5_to_8 7 :=
  c3_scale_monotone_and_endpoints.2.2 3 7 (by decide) (by decide)

/-- C4. For byte inputs, the Rgb15 pixel decoder combines the two
payload bytes as a big-endian 16-bit word whose bits 14–10 (after the
5-bit mask inside `scale_5_to_8`) give red, bits 9–5 green and bits 4–0
blue, and clearing bit 15 of the word does not change the output. -/
theorem c4_rgb15_word_layout (top bottom : Nat) (ht : top < 256) (hb : bottom < 256) :
    rgb15DecodePixel top bottom =
        (scale_5_to_8 ((256 * top + bottom) / 1024 % 32),
         scale_5_to_8 ((256 * top + bottom) / 32 % 32),
         scale_5_to_8 ((256 * top + bottom) % 32))
      ∧ rgb15DecodePixel top bottom = rgb15DecodePixel (top % 128) bottom :=
  ⟨rgb15_decode_masked top bottom, rgb15_bit15_irrelevant top bottom ht hb⟩

/-- C4 witness. The word-layout statement instantiated at the concrete
pixel bytes `0xAB 0xCD`. -/
theorem c4_rgb15_word_layout_witness :
    rgb15DecodePixel 0xAB 0xCD =
        (scale_5_to_8 ((256 * 0xAB + 0xCD) / 1024 % 32),
         scale_5_to_8 ((256 * 0xAB + 0xCD) / 32 % 32),
         scale_5_to_8 ((256 * 0xAB + 0xCD) % 32))
      ∧ rgb15DecodePixel 0xAB 0xCD = rgb15DecodePixel (0xAB % 128) 0xCD :=
  c4_rgb15_word_layout 0xAB 0xCD (by decide) (by decide)

/-- C10. The function `scale_5_to_8` depends only on the low 5 bits of its argument
(`scale_5_to_8 v = scale_5_to_8 (v % 32)` for every `v`), so the Rgb15
decoder may pass the unmasked shifted words directly: for byte inputs,
clearing the stray high bits (including bit 15) of the word leaves every
output channel unchanged. -/
theorem c10_scale_low_bits_only :
    (∀ v : Nat, scale_5_to_8 v = scale_5_to_8 (v % 32))
      ∧ ∀ top bottom : Nat, top < 256 → bottom < 256 →
          rgb15DecodePixel top bottom = rgb15DecodePixel (top % 128) bottom :=
  ⟨scale_mask, rgb15_bit15_irrelevant⟩

/-- C10 witness. The mask property at `v = 0xFFFF` and the high-bit
independence at the all-ones pixel `0xFF 0xFF`. -/
theorem c10_scale_low_bits_only_witness :
    scale_5_to_8 0xFFFF = scale_5_to_8 (0xFFFF % 32)
      ∧ rgb15DecodePixel 0xFF 0xFF = rgb15DecodePixel (0xFF % 128) 0xFF :=
  ⟨c10_scale_low_bits_only.1 0xFFFF,
   c10_scale_low_bits_only.2 0xFF 0xFF (by decide) (by decide)⟩

@[simp] theorem exceptBind_ok {α β : Type} (a : α) (f : α → Except Error β) :
    (Except.ok a : Except Error α) >>= f = f a := rfl

@[simp] theorem exceptBind_error {α β : Type} (e : Error) (f : α → Except Error β) :
    (Except.error e : Except Error α) >>= f = Except.error e := rfl

theorem interleaveGA_append : ∀ (a b c d : List Nat), a.length = b.length →
    interleaveGA (a ++ c) (b ++ d) = interleaveGA a b ++ interleaveGA c d
  | [], [], c, d, _ => by simp [interleaveGA]
  | [], _ :: _, _, _, h => by simp at h
  | _ :: _, [], _, _, h => by simp at h
  | x :: a, y :: b, c, d, h => by
    have ih := interleaveGA_append a b c d (by simpa using h)
    simp [interleaveGA, ih]

theorem mergeRowL8_ok : ∀ (w : Nat) (px al : List Nat), w ≤ px.length → w ≤ al.length →
    mergeRowL8 w px al = .ok (interleaveGA (px.take w) (al.take w), px.drop w, al.drop w)
  | 0, px, al, _, _ => by simp [mergeRowL8, interleaveGA]
  | w + 1, [], _, hp, _ => absurd hp (by simp)
  | w + 1, _ :: _, [], _, ha => absurd ha (by simp)
  | w + 1, g :: px, a :: al, hp, ha => by
    have ih := mergeRowL8_ok w px al (by simpa using hp) (by simpa using ha)
    simp [mergeRowL8, ih, Except.bind, interleaveGA]

theorem mergeRowL8_err : ∀ (w : Nat) (px al : List Nat), px.length < w ∨ al.length < w →
    mergeRowL8 w px al = .error .ShortRead
  | 0, _, _, h => by rcases h with h | h <;> exact absurd h (Nat.not_lt_zero _)
  | _ + 1, [], _, _ => rfl
  | _ + 1, _ :: _, [], _ => rfl
  | w + 1, g :: px, a :: al, h => by
    have h' : px.length < w ∨ al.length < w := by
      simp only [List.length_cons] at h; omega
    simp [mergeRowL8, mergeRowL8_err w px al h']

theorem mergeL8_ok (w : Nat) : ∀ (h : Nat) (px al : List Nat),
    w * h ≤ px.length → w * h ≤ al.length →
    ∃ rows, mergeL8 w h px al = .ok rows
      ∧ rows.flatten = interleaveGA (px.take (w * h)) (al.take (w * h))
  | 0, px, al, _, _ => ⟨[], by simp [mergeL8], by simp [interleaveGA]⟩
  | h + 1, px, al, hp, ha => by
    have e : w * (h + 1) = w + w * h := by ring
    rw [e] at hp ha
    have hwp : w ≤ px.length := by omega
    have hwa : w ≤ al.length := by omega
    obtain ⟨rows, hrec, hjoin⟩ := mergeL8_ok w h (px.drop w) (al.drop w)
      (by simp [List.length_drop]; omega) (by simp [List.length_drop]; omega)
    refine ⟨interleaveGA (px.take w) (al.take w) :: rows, ?_, ?_⟩
    · simp [mergeL8, mergeRowL8_ok w px al hwp hwa, hrec, Except.bind]
    · rw [e, List.take_add, List.take_add,
        interleaveGA_append _ _ _ _ (by simp [List.length_take]; omega)]
      simp [hjoin]

theorem mergeL8_err (w : Nat) : ∀ (h : Nat) (px al : List Nat),
    px.length < w * h ∨ al.length < w * h →
    mergeL8 w h px al = .error .ShortRead
  | 0, _, _, h => by rcases h with h | h <;> simp at h
  | h + 1, px, al, hs => by
    have e : w * (h + 1) = w + w * h := by ring
    rw [e] at hs
    by_cases hrow : px.length < w ∨ al.length < w
    · simp [mergeL8, mergeRowL8_err w px al hrow, Except.bind]
    · push_neg at hrow
      have ih := mergeL8_err w h (px.drop w) (al.drop w)
        (by simp [List.length_drop]; omega)
      simp [mergeL8, mergeRowL8_ok w px al hrow.1 hrow.2, ih, Except.bind]

theorem interleaveL16A_append : ∀ (a b c d : List Nat), a.length = 2 * b.length →
    interleaveL16A (a ++ c) (b ++ d) = interleaveL16A a b ++ interleaveL16A c d
  | [], [], c, d, _ => by simp [interleaveL16A]
  | _ :: _, [], _, _, h => by simp at h
  | [], _ :: _, _, _, h => by simp at h
  | [_], _ :: _, _, _, h => by simp at h; omega
  | m :: l :: a, y :: b, c, d, h => by
    have ih := interleaveL16A_append a b c d (by simp at h ⊢; omega)
    simp [interleaveL16A, ih]

theorem mergeRowL16_ok : ∀ (w : Nat) (px al : List Nat), 2 * w ≤ px.length → w ≤ al.length →
    mergeRowL16 w px al
      = .ok (interleaveL16A (px.take (2 * w)) (al.take w), px.drop (2 * w), al.drop w)
  | 0, px, al, _, _ => by simp [mergeRowL16, interleaveL16A]
  | w + 1, [], _, hp, _ => absurd hp (by simp)
  | w + 1, [_], _, hp, _ => absurd hp (by simp; omega)
  | w + 1, _ :: _ :: _, [], _, ha => absurd ha (by simp)
  | w + 1, m :: l :: px, a :: al, hp, ha => by
    have ih := mergeRowL16_ok w px al (by simp at hp; omega) (by simpa using ha)
    have e : 2 * (w + 1) = 2 * w + 1 + 1 := by ring
    rw [e]
    simp [mergeRowL16, ih, Except.bind, interleaveL16A]

theorem mergeL16_ok (w : Nat) : ∀ (h : Nat) (px al : List Nat),
    2 * (w * h) ≤ px.length → w * h ≤ al.length →
    ∃ rows, mergeL16 w h px al = .ok rows
      ∧ rows.flatten = interleaveL16A (px.take (2 * (w * h))) (al.take (w * h))
  | 0, px, al, _, _ => ⟨[], by simp [mergeL16], by simp [interleaveL16A]⟩
  | h + 1, px, al, hp, ha => by
    have e : w * (h + 1) = w + w * h := by ring
    have e2 : 2 * (w * (h + 1)) = 2 * w + 2 * (w * h) := by ring
    rw [e2] at hp
    rw [e] at ha
    have hwp : 2 * w ≤ px.length := by omega
    have hwa : w ≤ al.length := by omega
    obtain ⟨rows, hrec, hjoin⟩ := mergeL16_ok w h (px.drop (2 * w)) (al.drop w)
      (by simp [List.length_drop]; omega) (by simp [List.length_drop]; omega)
    refine ⟨interleaveL16A (px.take (2 * w)) (al.take w) :: rows, ?_, ?_⟩
    · simp [mergeL16, mergeRowL16_ok w px al hwp hwa, hrec, Except.bind]
    · rw [e2, e, List.take_add, List.take_add,
        interleaveL16A_append _ _ _ _ (by simp [List.length_take]; omega)]
      simp [hjoin]

theorem interleaveRgbA_append : ∀ (a b c d : List Nat), a.length = 3 * b.length →
    interleaveRgbA (a ++ c) (b ++ d) = interleaveRgbA a b ++ interleaveRgbA c d
  | [], [], c, d, _ => by simp [interleaveRgbA]
  | _ :: _, [], _, _, h => by simp at h
  | [], _ :: _, _, _, h => by simp at h
  | [_], _ :: _, _, _, h => by simp at h; omega
  | [_, _], _ :: _, _, _, h => by simp at h; omega
  | r :: g :: b0 :: a, y :: b, c, d, h => by
    have ih := interleaveRgbA_append a b c d (by simp at h ⊢; omega)
    simp [interleaveRgbA, ih]

theorem mergeRowRgb_ok : ∀ (w : Nat) (px al : List Nat), 3 * w ≤ px.length → w ≤ al.length →
    mergeRowRgb w px al
      = .ok (interleaveRgbA (px.take (3 * w)) (al.take w), px.drop (3 * w), al.drop w)
  | 0, px, al, _, _ => by simp [mergeRowRgb, interleaveRgbA]
  | w + 1, [], _, hp, _ => absurd hp (by simp)
  | w + 1, [_], _, hp, _ => absurd hp (by simp; omega)
  | w + 1, [_, _], _, hp, _ => absurd hp (by simp; omega)
  | w + 1, _ :: _ :: _ :: _, [], _, ha => absurd ha (by simp)
  | w + 1, r :: g :: b :: px, a :: al, hp, ha => by
    have ih := mergeRowRgb_ok w px al (by simp at hp; omega) (by simpa using ha)
    have e : 3 * (w + 1) = 3 * w + 1 + 1 + 1 := by ring
    rw [e]
    simp [mergeRowRgb, ih, Except.bind, interleaveRgbA]

theorem mergeRgb_ok (w : Nat) : ∀ (h : Nat) (px al : List Nat),
    3 * (w * h) ≤ px.length → w * h ≤ al.length →
    ∃ rows, mergeRgb w h px al = .ok rows
      ∧ rows.flatten = interleaveRgbA (px.take (3 * (w * h))) (al.take (w * h))
  | 0, px, al, _, _ => ⟨[], by simp [mergeRgb], by simp [interleaveRgbA]⟩
  | h + 1, px, al, hp, ha => by
    have e : w * (h + 1) = w + w * h := by ring
    have e3 : 3 * (w * (h + 1)) = 3 * w + 3 * (w * h) := by ring
    rw [e3] at hp
    rw [e] at ha
    have hwp : 3 * w ≤ px.length := by omega
    have hwa : w ≤ al.length := by omega
    obtain ⟨rows, hrec, hjoin⟩ := mergeRgb_ok w h (px.drop (3 * w)) (al.drop w)
      (by simp [List.length_drop]; omega) (by simp [List.length_drop]; omega)
    refine ⟨interleaveRgbA (px.take (3 * w)) (al.take w) :: rows, ?_, ?_⟩
    · simp [mergeRgb, mergeRowRgb_ok w px al hwp hwa, hrec, Except.bind]
    · rw [e3, e, List.take_add, List.take_add,
        interleaveRgbA_append _ _ _ _ (by simp [List.length_take]; omega)]
      simp [hjoin]

/-- C6. The alpha-merge operation interleaves per pixel format: for 8-bit
grayscale the flattened output is grayscale byte then alpha byte per pixel;
for 16-bit grayscale the two grayscale bytes are followed by the alpha byte
duplicated; for RGB each pixel is R, G, B then alpha (RGBA); and the 1×1
grayscale image `[0x80]` merged with alpha plane `[0xFF]` yields exactly
`[0x80, 0xFF]`. -/
theorem c6_alpha_merge_interleaves :
    (∀ w h px al : _, px.length = w * h → al.length = w * h →
        ∃ rows, mergeL8 w h px al = .ok rows ∧ rows.flatten = interleaveGA px al)
      ∧ (∀ w h px al : _, px.length = 2 * (w * h) → al.length = w * h →
          ∃ rows, mergeL16 w h px al = .ok rows ∧ rows.flatten = interleaveL16A px al)
      ∧ (∀ w h px al : _, px.length = 3 * (w * h) → al.length = w * h →
          ∃ rows, mergeRgb w h px al = .ok rows ∧ rows.flatten = interleaveRgbA px al)
      ∧ mergeL8 1 1 [0x80] [0xFF] = .ok [[0x80, 0xFF]] := by
  refine ⟨fun w h px al hp ha => ?_, fun w h px al hp ha => ?_, fun w h px al hp ha => ?_, rfl⟩
  · obtain ⟨rows, hok, hjoin⟩ := mergeL8_ok w h px al (le_of_eq hp.symm) (le_of_eq ha.symm)
    refine ⟨rows, hok, ?_⟩
    rw [hjoin]
    congr 1
    · rw [← hp]; exact List.take_length px
    · rw [← ha]; exact List.take_length al
  · obtain ⟨rows, hok, hjoin⟩ := mergeL16_ok w h px al (le_of_eq hp.symm) (le_of_eq ha.symm)
    refine ⟨rows, hok, ?_⟩
    rw [hjoin]
    congr 1
    · rw [← hp]; exact List.take_length px
    · rw [← ha]; exact List.take_length al
  · obtain ⟨rows, hok, hjoin⟩ := mergeRgb_ok w h px al (le_of_eq hp.symm) (le_of_eq ha.symm)
    refine ⟨rows, hok, ?_⟩
    rw [hjoin]
    congr 1
    · rw [← hp]; exact List.take_length px
    · rw [← ha]; exact List.take_length al

/-- C6 witness. The grayscale interleaving applied to the concrete 2×1
image `[0x10, 0x20]` with alpha plane `[0xAA, 0xBB]`. -/
theorem c6_alpha_merge_interleaves_witness :
    ∃ rows, mergeL8 2 1 [0x10, 0x20] [0xAA, 0xBB] = .ok rows
      ∧ rows.flatten = interleaveGA [0x10, 0x20] [0xAA, 0xBB] :=
  c6_alpha_merge_interleaves.1 2 1 [0x10, 0x20] [0xAA, 0xBB] (by decide) (by decide)

/-- C7 counterexample. A 1×1 grayscale merge with a 2-byte alpha plane —
longer than `width * height = 1` — succeeds (the extra alpha byte is
ignored), so the merge does *not* fail when the alpha plane is longer. -/
theorem c7_longer_alpha_plane_accepted :
    mergeL8 1 1 [0x80] [0xFF, 0x00] = .ok [[0x80, 0xFF]] := rfl

/-- C7 amended. The 8-bit grayscale alpha merge fails with `ShortRead`
exactly when the pixel stream or the alpha plane has fewer than
`width * height` bytes; surplus bytes in either stream are ignored and the
merge succeeds. -/
theorem c7_merge_short_read_iff :
    ∀ w h px al : _, mergeL8 w h px al = .error .ShortRead
      ↔ px.length < w * h ∨ al.length < w * h := by
  intro w h px al
  constructor
  · intro he
    by_contra hno
    push_neg at hno
    obtain ⟨rows, hok, _⟩ := mergeL8_ok w h px al hno.1 hno.2
    rw [hok] at he
    exact Except.noConfusion he
  · exact mergeL8_err w h px al

theorem rgb24WriteRow_err : ∀ (w : Nat) (data : List Nat), data.length < 3 * w →
    rgb24WriteRow w data = .error .ShortRead
  | 0, _, h => by simp at h
  | _ + 1, [], _ => rfl
  | _ + 1, [_], _ => rfl
  | _ + 1, [_, _], _ => rfl
  | w + 1, r :: g :: b :: rest, h => by
    have h' : rest.length < 3 * w := by simp only [List.length_cons] at h; omega
    simp [rgb24WriteRow, rgb24WriteRow_err w rest h']

theorem rgb24WriteRow_ok : ∀ (w : Nat) (data : List Nat), 3 * w ≤ data.length →
    rgb24WriteRow w data = .ok (data.take (3 * w), data.drop (3 * w))
  | 0, data, _ => by simp [rgb24WriteRow]
  | w + 1, [], h => absurd h (by simp)
  | w + 1, [_], h => absurd h (by simp; omega)
  | w + 1, [_, _], h => absurd h (by simp; omega)
  | w + 1, r :: g :: b :: rest, h => by
    have ih := rgb24WriteRow_ok w rest (by simp only [List.length_cons] at h; omega)
    have e : 3 * (w + 1) = 3 * w + 1 + 1 + 1 := by ring
    rw [e]
    simp [rgb24WriteRow, ih]

theorem rgb24WriteRows_err (w : Nat) : ∀ (h : Nat) (data : List Nat),
    data.length < 3 * (w * h) → rgb24WriteRows w h data = .error .ShortRead
  | 0, _, hs => by simp at hs
  | h + 1, data, hs => by
    have e : 3 * (w * (h + 1)) = 3 * w + 3 * (w * h) := by ring
    rw [e] at hs
    by_cases hrow : data.length < 3 * w
    · simp [rgb24WriteRows, rgb24WriteRow_err w data hrow]
    · push_neg at hrow
      have ih := rgb24WriteRows_err w h (data.drop (3 * w))
        (by simp [List.length_drop]; omega)
      simp [rgb24WriteRows, rgb24WriteRow_ok w data hrow, ih]

/-- C5 counterexample. The `ColorMap8` lossless branch of `process_tags`
in `main.rs` panics (`read_exact … expect` / `next().unwrap()`, modelled
as `none`) when the payload is smaller than the computed minimum — here an
empty payload for a 2×2 image with `num_colors = 0` — instead of returning
a typed `ShortRead` error to the caller; and since `process_tags` itself
uses `expect` on every write, such a failure aborts the extraction
process. -/
theorem c5_colormap8_short_payload_panics :
    colorMap8Decode 0 2 2 [] = none := rfl

/-- C5 amended. The decode paths inside `Bitmap::write` in `bitmap.rs`
do return typed `ShortRead` results: the `Rgb24` branch yields
`Err(Error::ShortRead)` whenever the pixel payload is smaller than the
`3 * width * height` bytes it needs.  (The `DefineBitsLossless` decoding in
`process_tags`, by contrast, panics on short payloads.) -/
theorem c5_rgb24_short_payload_short_read :
    ∀ w h data : _, data.length < 3 * (w * h) →
      rgb24WriteRows w h data = .error .ShortRead :=
  fun w h data hs => rgb24WriteRows_err w h data hs

/-- C5 witness. A 1×1 RGB image with only 2 of the 3 required bytes. -/
theorem c5_rgb24_short_payload_short_read_witness :
    rgb24WriteRows 1 1 [0x12, 0x34] = .error .ShortRead :=
  c5_rgb24_short_payload_short_read 1 1 [0x12, 0x34] (by decide)

/-- C8. For ADPCM-sourced audio (the compression for which
`Sound::write_wav` always writes 16 bits per sample), the WAV writer emits
exactly `RIFF`, the 4-byte little-endian RIFF size, `WAVE`, `fmt `, the
4-byte fmt-chunk size 16, the PCM fmt chunk (format tag 1, channel count,
sample rate, byte rate = sample rate × bytes per sample × channels, block
alignment, bits per sample = 16), then `data`, the 4-byte data length and
the raw sample bytes. -/
theorem c8_write_wav_layout (fmt : SoundFormat) (data : List Nat)
    (hc : fmt.compression = .Adpcm) (hlen : data.length + 36 < 2 ^ 32) :
    writeWav fmt data = some (
      [0x52, 0x49, 0x46, 0x46] ++ le32 (36 + data.length)
      ++ [0x57, 0x41, 0x56, 0x45]
      ++ [0x66, 0x6D, 0x74, 0x20] ++ le32 16
      ++ (le16 1 ++ le16 (if fmt.is_stereo then 2 else 1) ++ le32 fmt.sample_rate
          ++ le32 (fmt.sample_rate * (if fmt.is_16_bit then 2 else 1)
              * (if fmt.is_stereo then 2 else 1))
          ++ le16 (1 * (if fmt.is_16_bit then 2 else 1) * (if fmt.is_stereo then 2 else 1))
          ++ le16 16)
      ++ [0x64, 0x61, 0x74, 0x61] ++ le32 data.length ++ data) := by
  have hbps : bitsPerSample fmt = some 16 := by simp [bitsPerSample, hc]
  unfold writeWav
  rw [hbps]
  simp only [optionBind_some, le16, le32, List.length_append, List.length_cons,
    List.length_nil]
  rw [if_pos (by omega)]

/-- C8 witness. The layout applied to a concrete stereo 16-bit ADPCM
sound with two sample bytes. -/
theorem c8_write_wav_layout_witness :
    writeWav ⟨.Adpcm, 44100, true, true⟩ [1, 2] = some (
      [0x52, 0x49, 0x46, 0x46] ++ le32 38
      ++ [0x57, 0x41, 0x56, 0x45]
      ++ [0x66, 0x6D, 0x74, 0x20] ++ le32 16
      ++ (le16 1 ++ le16 2 ++ le32 44100 ++ le32 (44100 * 2 * 2) ++ le16 (1 * 2 * 2)
          ++ le16 16)
      ++ [0x64, 0x61, 0x74, 0x61] ++ le32 2 ++ [1, 2]) :=
  c8_write_wav_layout ⟨.Adpcm, 44100, true, true⟩ [1, 2] rfl (by decide)

theorem clampInt_mem (lo hi x : Int) (h : lo ≤ hi) :
    lo ≤ clampInt lo hi x ∧ clampInt lo hi x ≤ hi :=
  ⟨le_max_left lo _, max_le h (min_le_right x hi)⟩

theorem signExtend16_bounds (n : Nat) :
    -32768 ≤ signExtend16 n ∧ signExtend16 n ≤ 32767 := by
  unfold signExtend16
  have h1 : n % 65536 < 65536 := Nat.mod_lt _ (by norm_num)
  split <;> constructor <;> omega

theorem adpcmInit_mem (t : AdpcmTables) (pred16 : Nat) (rawIndex : Int)
    (hts : 1 ≤ t.tableSize) :
    (-32768 ≤ (adpcmInit t pred16 rawIndex).predictor
        ∧ (adpcmInit t pred16 rawIndex).predictor ≤ 32767)
      ∧ (0 ≤ (adpcmInit t pred16 rawIndex).step_index
        ∧ (adpcmInit t pred16 rawIndex).step_index ≤ (t.tableSize : Int) - 1) := by
  have h1 : (0 : Int) ≤ (t.tableSize : Int) - 1 := by
    have : (1 : Int) ≤ (t.tableSize : Int) := by exact_mod_cast hts
    omega
  simp only [adpcmInit]
  exact ⟨signExtend16_bounds pred16, clampInt_mem _ _ _ h1⟩

theorem adpcmStep_mem (t : AdpcmTables) (shift : Nat) (st : ChannelState)
    (code : Bool × Nat) (hts : 1 ≤ t.tableSize) :
    (-32768 ≤ (adpcmStep t shift st code).predictor
        ∧ (adpcmStep t shift st code).predictor ≤ 32767)
      ∧ (0 ≤ (adpcmStep t shift st code).step_index
        ∧ (adpcmStep t shift st code).step_index ≤ (t.tableSize : Int) - 1) := by
  have h1 : (0 : Int) ≤ (t.tableSize : Int) - 1 := by
    have : (1 : Int) ≤ (t.tableSize : Int) := by exact_mod_cast hts
    omega
  simp only [adpcmStep]
  exact ⟨clampInt_mem _ _ _ (by norm_num), clampInt_mem _ _ _ h1⟩

theorem adpcmTrace_mem (t : AdpcmTables) (shift : Nat) (hts : 1 ≤ t.tableSize) :
    ∀ (codes : List (Bool × Nat)) (init : ChannelState),
      ((-32768 ≤ init.predictor ∧ init.predictor ≤ 32767)
        ∧ (0 ≤ init.step_index ∧ init.step_index ≤ (t.tableSize : Int) - 1)) →
      ∀ st ∈ adpcmTrace t shift init codes,
        (-32768 ≤ st.predictor ∧ st.predictor ≤ 32767)
          ∧ (0 ≤ st.step_index ∧ st.step_index ≤ (t.tableSize : Int) - 1) := by
  intro codes
  induction codes with
  | nil =>
    intro init hinit st hmem
    simp [adpcmTrace, List.scanl] at hmem
    subst hmem
    exact hinit
  | cons c cs ih =>
    intro init hinit st hmem
    rw [adpcmTrace, List.scanl_cons] at hmem
    rcases List.mem_cons.mp hmem with rfl | hmem
    · exact hinit
    · exact ih (adpcmStep t shift init c) (adpcmStep_mem t shift init c hts) st hmem

/-- C9. (Spec-modelled: `src/adpcm.rs` is not in the source tree.)
After header seeding and after every decode step, each channel's predictor
lies within `[-32768, 32767]` and its step index within
`[0, table_size - 1]` (table size 4, 8, 16 or 32 for the active bit
width), for every input code stream, initial header and table contents. -/
theorem c9_adpcm_state_invariant (t : AdpcmTables) (shift pred16 : Nat)
    (rawIndex : Int) (codes : List (Bool × Nat))
    (hts : t.tableSize = 4 ∨ t.tableSize = 8 ∨ t.tableSize = 16 ∨ t.tableSize = 32) :
    ∀ st ∈ adpcmTrace t shift (adpcmInit t pred16 rawIndex) codes,
      (-32768 ≤ st.predictor ∧ st.predictor ≤ 32767)
        ∧ (0 ≤ st.step_index ∧ st.step_index ≤ (t.tableSize : Int) - 1) := by
  have h1 : 1 ≤ t.tableSize := by rcases hts with h | h | h | h <;> omega
  exact adpcmTrace_mem t shift h1 codes _ (adpcmInit_mem t pred16 rawIndex h1)

/-- C9 witness. The invariant evaluated on a concrete one-code stream
over `sampleTables`, at the state reached after the decode step. -/
theorem c9_adpcm_state_invariant_witness :
    (-32768 ≤ (adpcmStep sampleTables 2 (adpcmInit sampleTables 40000 100) (false, 1)).predictor
        ∧ (adpcmStep sampleTables 2 (adpcmInit sampleTables 40000 100) (false, 1)).predictor ≤ 32767)
      ∧ (0 ≤ (adpcmStep sampleTables 2 (adpcmInit sampleTables 40000 100) (false, 1)).step_index
        ∧ (adpcmStep sampleTables 2 (adpcmInit sampleTables 40000 100) (false, 1)).step_index
            ≤ (sampleTables.tableSize : Int) - 1) :=
  c9_adpcm_state_invariant sampleTables 2 40000 100 [(false, 1)] (Or.inl rfl)
    (adpcmStep sampleTables 2 (adpcmInit sampleTables 40000 100) (false, 1))
    (by decide)

end SwfExtract
